import Mathlib

/-!
# Verification of the potato object-projection engine

Shallow embedding of the projection core of the `potato` repository:

* `src/potato/dto/view.py`   — `ViewDTO`: projection construction (`from_domain`,
  `from_domains`, async twins), field-mapping resolution, visibility,
  before-build hooks, serialization (`model_dump`).
* `src/potato/dto/build.py`  — `BuildDTO`: `to_domain`, `apply_to`,
  `_remap_to_domain_names`.
* `src/potato/dto/base.py`   — `BuildDTOMeta.__new__`: reverse-mapping
  extraction and validation.
* `src/potato/domain/aggregates.py` — namespaced references into aggregates.

Python dicts are embedded as association lists with insert-or-overwrite
update (`setKey`/`updateAll`), runtime values as the inductive `Val`,
`getattr` as `getattrV` returning `Option Val` (the `_SENTINEL` marker of
`view.py` is `none`).  Pydantic model construction `Cls(**data)` is embedded
as `mkModel`: fields are stored per schema order from the supplied data and
extra keys are ignored (pydantic's default `extra` behaviour, and the
explicit `extra="ignore"` of `ViewDTO.model_config`); per-field validation,
coercion and defaulting of absent fields belong to the external Value
Validator collaborator (spec section 6) and are outside this model.
-/

namespace Potato

/-- Runtime values: primitives plus objects with named fields (pydantic
models, aggregates, and plain attribute-bearing Python objects). -/
inductive Val where
  | vint : Int → Val
  | vstr : String → Val
  | vbool : Bool → Val
  | vnone : Val
  | obj : List (String × Val) → Val

/-- Association lists standing for Python dicts (`{key: value}`). -/
abbrev AList := List (String × Val)

/-- First-occurrence lookup: the read semantics of a Python dict whose
entries were inserted left to right without key collisions. -/
def alookup {α : Type} : List (String × α) → String → Option α
  | [], _ => none
  | (k', v) :: rest, k => if k' = k then some v else alookup rest k

/-- Last-occurrence lookup: the value the key holds after all pairs of the
list have been written into a dict in order. -/
def lookupLast {α : Type} : List (String × α) → String → Option α
  | [], _ => none
  | (k', v) :: rest, k =>
    match lookupLast rest k with
    | some w => some w
    | none => if k' = k then some v else none

/-- `d[k] = v` on a Python dict: overwrite in place if the key exists,
append otherwise. -/
def setKey {α : Type} : List (String × α) → String → α → List (String × α)
  | [], k, v => [(k, v)]
  | (k', v') :: rest, k, v =>
    if k' = k then (k', v) :: rest else (k', v') :: setKey rest k v

/-- `d.update(kvs)` on a Python dict: write every pair of `kvs` in order. -/
def updateAll {α : Type} : List (String × α) → List (String × α) → List (String × α)
  | d, [] => d
  | d, kv :: rest => updateAll (setKey d kv.1 kv.2) rest

/-- `getattr(value, name)` for field-bearing values; `none` when the
attribute is absent (`hasattr` false). -/
def getattrV (v : Val) (name : String) : Option Val :=
  match v with
  | .obj fields => alookup fields name
  | _ => none

/-- `instance.model_dump()` of an embedded pydantic model: its field map. -/
def dumpModel (v : Val) : AList :=
  match v with
  | .obj fields => fields
  | _ => []

/-- The stored fields of `Cls(**data)`: each schema field present in `data`,
in schema order; keys absent from the schema are ignored.  Validation and
defaulting of missing fields belong to the external Value Validator. -/
def mkInstanceStored (schema : List String) (data : AList) : AList :=
  schema.filterMap (fun k => (alookup data k).map (fun v => (k, v)))

/-- `DomainCls(**data)` as a value. -/
def mkModel (schema : List String) (data : AList) : Val :=
  .obj (mkInstanceStored schema data)

/-! ## Build side — `src/potato/dto/build.py` -/

/-- `mappings.get(key, key)`: the domain name a DTO field is renamed to by
the reverse mapping table `__build_field_mappings__`. -/
def renameKey (mappings : List (String × String)) (k : String) : String :=
  (alookup mappings k).getD k

/-- `BuildDTO._remap_to_domain_names` (build.py lines 69-79): when the
mapping table is empty the data is returned unchanged, otherwise a fresh
dict is filled with each entry under its renamed key, in dump order. -/
def remapToDomainNames (mappings : List (String × String)) (data : AList) : AList :=
  if mappings.isEmpty then data
  else updateAll [] (data.map (fun kv => (renameKey mappings kv.1, kv.2)))

/-- `BuildDTO.to_domain(**kwargs)` (build.py lines 81-111).  `dumpData` is
`self.model_dump()` — every projection field with its current value, in
model-field order; the result is `self._domain_cls(**domain_data)`. -/
def toDomain (domainSchema : List String) (mappings : List (String × String))
    (dumpData : AList) (kwargs : AList) : Val :=
  let data := remapToDomainNames mappings dumpData
  let domainData := data.filter (fun kv => (domainSchema.contains kv.1 : Bool))
  let domainData := updateAll domainData kwargs
  mkModel domainSchema domainData

/-- `BuildDTO.apply_to(entity)` (build.py lines 113-138).  `setFields` is
`self.model_dump(exclude_unset=True)` — only the explicitly set projection
fields, in model-field order. -/
def applyTo (domainSchema : List String) (mappings : List (String × String))
    (setFields : AList) (entity : Val) : Val :=
  let updateData := remapToDomainNames mappings setFields
  let entityData := dumpModel entity
  let entityData := updateAll entityData updateData
  mkModel domainSchema entityData

/-! ## Reverse-mapping declaration checks — `src/potato/dto/base.py` -/

/-- Modelled from the spec: the validated Field Reference record
(spec section 3: owning type, ordered path of field names) carried by the
`FieldProxy` objects that `BuildDTOMeta.__new__` consumes through
`proxy.path` and `proxy.field_name`; the `types.py` under `src/` still
carries only the flat `field_name`, the path-bearing accessor is missing.
A flat reference `Domain.field` has `path = [field]` and
`fieldName = field`. -/
structure FieldProxySpec where
  modelCls : String
  path : List String
  fieldName : String

/-- The loop of `BuildDTOMeta.__new__` (base.py lines 86-97): walk the
declared potato fields in order; a source whose path is deeper than one
step raises `TypeError`, a flat source adds `(dto_name, domain_name)` to
the reverse mapping table. -/
def extractBuildMappings :
    List (String × Option FieldProxySpec) → Except String (List (String × String))
  | [] => .ok []
  | (fname, src) :: rest =>
    match src with
    | some proxy =>
      if proxy.path.length > 1 then
        .error ("field " ++ fname ++ " uses a deep path")
      else
        (extractBuildMappings rest).map (fun ms => (fname, proxy.fieldName) :: ms)
    | none => extractBuildMappings rest

/-- Inner loop of `_validate_build_field_mappings` (base.py lines 126-133):
every mapping target must be a field of the bound domain. -/
def checkMappingTargets (domainFields : List String) :
    List (String × String) → Except String Unit
  | [] => .ok ()
  | (f, t) :: rest =>
    if domainFields.contains t then checkMappingTargets domainFields rest
    else .error ("field " ++ f ++ " maps to " ++ t ++ " which does not exist")

/-- `_validate_build_field_mappings` (base.py lines 108-133): returns
silently when no domain is bound, the mapping table is empty, or the bound
domain exposes no fields. -/
def validateBuildFieldMappings (domainFields : Option (List String))
    (ms : List (String × String)) : Except String Unit :=
  match domainFields with
  | none => .ok ()
  | some dfs =>
    if ms.isEmpty then .ok ()
    else if dfs.isEmpty then .ok ()
    else checkMappingTargets dfs ms

/-- The reverse-mapping part of a `BuildDTO` class declaration
(`BuildDTOMeta.__new__`, base.py lines 60-105): extract the reverse
mapping table, then validate it against the bound domain schema. -/
def buildDTODeclare (potatoSources : List (String × Option FieldProxySpec))
    (domainFields : Option (List String)) : Except String (List (String × String)) :=
  match extractBuildMappings potatoSources with
  | .error e => .error e
  | .ok ms =>
    match validateBuildFieldMappings domainFields ms with
    | .error e => .error e
    | .ok () => .ok ms

/-! ## View side — `src/potato/dto/view.py` -/

/-- One entry of `__field_mappings__` as consumed by
`ViewDTO._extract_mapped_data` (view.py line 659):
`(domain class, domain field, namespace, path)`.  The namespace is the
aggregate field name the reference was taken through
(`AggregateMeta.__getattr__`, aggregates.py line 98); `nspace` stands for
the source's `namespace` attribute, which is a reserved word here. -/
structure FieldMapping where
  refCls : String
  domainField : String
  nspace : Option String
  path : List String

/-- Per-field declaration data of a potato `Field(...)` (core.py lines
92-105) as used by the view pipeline: the transform and the visibility
predicate.  A transform is embedded as a two-argument function; a Python
one-argument transform ignores its context argument
(`_apply_transform`, view.py lines 439-443). -/
structure FieldDef (κ : Type) where
  transform : Option (Val → Option κ → Val) := none
  visible : Option (κ → Bool) := none

/-- A `ViewDTO` class declaration as the runtime pipeline sees it:
`model_fields`, `__field_mappings__`, `__potato_fields__`,
`__before_build_hooks__` (already merged parent-first), and
`__is_aggregate_view__`.  The embedding covers classes whose declared
field types are leaf types (no nested `ViewDTO` fields, for which
`_maybe_build_nested_viewdto` is the identity) and without computed
methods or after-build hooks, which no claim concerns. -/
structure ViewSpec (κ : Type) where
  modelFields : List String
  fieldMappings : List (String × FieldMapping)
  potatoFields : List (String × FieldDef κ)
  beforeHooks : List (Val → Option κ → AList)
  isAggregate : Bool

/-- `_merge_parent_metadata` on hook lists (view.py line 312):
`parent_before + child_before` — parent hooks run before child hooks. -/
def mergeBeforeBuildHooks {κ : Type} (parentHooks childHooks : List (Val → Option κ → AList)) :
    List (Val → Option κ → AList) :=
  parentHooks ++ childHooks

/-- Path walk of `_resolve_field_value` (view.py lines 856-864): follow the
steps by attribute lookup; a missing step yields the sentinel (`none`). -/
def walkPathV : Val → List String → Option Val
  | v, [] => some v
  | v, step :: rest =>
    match getattrV v step with
    | some v' => walkPathV v' rest
    | none => none

/-- `_resolve_field_value` (view.py lines 841-864): when a namespace is
present and the view is bound to an aggregate, first navigate to the named
sub-entity, then walk the remaining path; `none` is the `_SENTINEL`. -/
def resolveFieldValue (entity : Val) (nspace : Option String) (path : List String)
    (isAggregate : Bool) : Option Val :=
  match nspace, isAggregate with
  | some ns, true =>
    match getattrV entity ns with
    | some target => walkPathV target path
    | none => none
  | _, _ => walkPathV entity path

/-- `_apply_transform` (view.py lines 439-443). -/
def applyTransform {κ : Type} (fd : FieldDef κ) (v : Val) (ctx : Option κ) : Val :=
  match fd.transform with
  | some t => t v ctx
  | none => v

/-- Loop 1 of `_extract_mapped_data` (view.py lines 658-668): resolve each
explicitly mapped field; on success apply its transform and store it, on a
sentinel leave the dict untouched. -/
def extractExplicitFields {κ : Type} (entity : Val) (ctx : Option κ) (isAggregate : Bool)
    (potatoFields : List (String × FieldDef κ)) :
    List (String × FieldMapping) → AList → AList
  | [], acc => acc
  | (viewField, m) :: rest, acc =>
    let acc' :=
      match resolveFieldValue entity m.nspace m.path isAggregate with
      | none => acc
      | some v =>
        let v' :=
          match alookup potatoFields viewField with
          | some fd => applyTransform fd v ctx
          | none => v
        setKey acc viewField v'
    extractExplicitFields entity ctx isAggregate potatoFields rest acc'

/-- Loop 2 of `_extract_mapped_data` (view.py lines 671-688): auto-map the
remaining model fields by name; a field already mapped is skipped, an
absent attribute is omitted. -/
def extractAutoFields (entity : Val) : List String → AList → AList
  | [], acc => acc
  | f :: rest, acc =>
    let acc' :=
      if (alookup acc f).isSome then acc
      else
        match getattrV entity f with
        | some v => setKey acc f v
        | none => acc
    extractAutoFields entity rest acc'

/-- `ViewDTO._extract_mapped_data` (view.py lines 646-690). -/
def extractMappedData {κ : Type} (spec : ViewSpec κ) (entity : Val) (ctx : Option κ) : AList :=
  extractAutoFields entity spec.modelFields
    (extractExplicitFields entity ctx spec.isAggregate spec.potatoFields spec.fieldMappings [])

/-- The before-build hook loop of `from_domain` (view.py lines 515-523):
`extra_data.update(result)` for each hook in order. -/
def hookExtraDataAux {κ : Type} (entity : Val) (ctx : Option κ) :
    List (Val → Option κ → AList) → AList → AList
  | [], acc => acc
  | h :: rest, acc => hookExtraDataAux entity ctx rest (updateAll acc (h entity ctx))

/-- The accumulated `extra_data` of all before-build hooks. -/
def hookExtraData {κ : Type} (hooks : List (Val → Option κ → AList))
    (entity : Val) (ctx : Option κ) : AList :=
  hookExtraDataAux entity ctx hooks []

/-- `ViewDTO._compute_hidden_fields` (view.py lines 635-644): a field with
a visibility predicate is hidden when there is no context or the predicate
returns false.  The Python set is embedded as the list of added names. -/
def computeHiddenFields {κ : Type} (potatoFields : List (String × FieldDef κ))
    (ctx : Option κ) : List String :=
  match potatoFields with
  | [] => []
  | (name, fd) :: rest =>
    let restHidden := computeHiddenFields rest ctx
    match fd.visible with
    | none => restHidden
    | some vis =>
      match ctx with
      | none => name :: restHidden
      | some c => if vis c then restHidden else name :: restHidden

/-- A constructed `ViewDTO` instance: its stored fields and the
per-instance `__hidden_fields__` set. -/
structure Inst where
  stored : AList
  hidden : List String

/-- `ViewDTO.from_domain` (view.py lines 500-549): run the before-build
hooks, extract the mapped data, overlay the hook data
(`mapped_data.update(extra_data)`), compute the hidden-field set, and
construct the instance with all fields populated — visibility is
serialization-only.  `_validate_context` only raises and contributes no
data; the claims below concern calls with a valid context. -/
def fromDomain {κ : Type} (spec : ViewSpec κ) (entity : Val) (ctx : Option κ) : Inst :=
  let extraData := hookExtraData spec.beforeHooks entity ctx
  let mappedData := extractMappedData spec entity ctx
  let mappedData := updateAll mappedData extraData
  let hidden := computeHiddenFields spec.potatoFields ctx
  { stored := mkInstanceStored spec.modelFields mappedData, hidden := hidden }

/-- `ViewDTO.from_domains` (view.py lines 551-563): a list comprehension
over the entities in order. -/
def fromDomains {κ : Type} (spec : ViewSpec κ) (entities : List Val) (ctx : Option κ) :
    List Inst :=
  entities.map (fun e => fromDomain spec e ctx)

/-- `ViewDTO.afrom_domain` (view.py lines 566-617): the same pipeline with
awaited hooks, transforms and computed methods.  In this pure embedding
awaiting a pure step yields the step's value, so the per-item asynchronous
pipeline denotes the same instance. -/
def afromDomain {κ : Type} (spec : ViewSpec κ) (entity : Val) (ctx : Option κ) : Inst :=
  fromDomain spec entity ctx

/-- `ViewDTO.afrom_domains` (view.py lines 619-633):
`asyncio.gather(*(afrom_domain(e) for e in entities))` — the coroutines may
run concurrently but `gather` returns their results in argument order, so
the denotation is an order-preserving map. -/
def afromDomains {κ : Type} (spec : ViewSpec κ) (entities : List Val) (ctx : Option κ) :
    List Inst :=
  entities.map (fun e => afromDomain spec e ctx)

/-- `ViewDTO.model_dump` (view.py lines 801-826) for the classes covered
here (no computed methods): the stored fields with every hidden field
popped. -/
def modelDump (inst : Inst) : AList :=
  inst.stored.filter (fun kv => !inst.hidden.contains kv.1)

/-- `ViewDTO.model_dump_json` (view.py lines 828-834) serializes exactly
the dict produced by `model_dump(mode="json")`; the embedding keeps the
key-value structure before JSON rendering. -/
def modelDumpJson (inst : Inst) : AList :=
  modelDump inst

/-! ## View-declaration checks — `ViewDTOMeta.__new__` (view.py) -/

/-- A domain class declaration as the declaration-time validators see it:
per field its name, its `Private[...]` marker
(`_is_private_field` on `get_type_hints(domain_cls, include_extras=True)`),
and, for an entity-typed field, the name of the field's domain class. -/
structure DomainClsSpec where
  name : String
  fields : List (String × Bool × Option String)

/-- `domain_cls.model_fields.keys()`. -/
def modelFieldNames (d : DomainClsSpec) : List String :=
  d.fields.map (fun f => f.1)

/-- `get_type_hints(domain_cls, include_extras=True)` paired with
`_is_private_field` of each hint. -/
def typeHints (d : DomainClsSpec) : List (String × Bool) :=
  d.fields.map (fun f => (f.1, f.2.1))

/-- Class lookup for resolving an entity-typed path step. -/
def findCls (table : List DomainClsSpec) (nm : String) : Option DomainClsSpec :=
  table.find? (fun d => d.name == nm)

/-- The path walk of `_validate_viewdto_field_mappings` (view.py lines
372-397): each step must exist on the class reached so far; reaching a
leaf-typed or unresolvable step stops the validation (`break`). -/
def walkMappingPath (table : List DomainClsSpec) :
    DomainClsSpec → List String → Except String Unit
  | _, [] => .ok ()
  | cur, step :: rest =>
    if (modelFieldNames cur).contains step then
      match cur.fields.find? (fun f => f.1 == step) with
      | some (_, _, some nm) =>
        match findCls table nm with
        | some next => walkMappingPath table next rest
        | none => .ok ()
      | _ => .ok ()
    else .error ("invalid path: " ++ step ++ " does not exist on " ++ cur.name)

/-- `_validate_viewdto_field_mappings` (view.py lines 320-397) for a view
bound to a single domain (`is_aggregate` false): each mapping must
reference the bound domain class and carry a path that validates against
it.  The aggregate branch only widens the set of allowed referenced
classes and is not needed by the claims below. -/
def validateViewFieldMappings (table : List DomainClsSpec) (domainCls : DomainClsSpec) :
    List (String × FieldMapping) → Except String Unit
  | [] => .ok ()
  | (viewField, m) :: rest =>
    if m.refCls ≠ domainCls.name then
      .error ("field " ++ viewField ++ " references a class the view is not bound to")
    else
      match walkMappingPath table domainCls m.path with
      | .error e => .error e
      | .ok () => validateViewFieldMappings table domainCls rest

/-- `_validate_no_private_fields` (view.py lines 400-416): walk the bound
domain's own type hints; a hint whose name is among the view's declared
fields and whose type is `Private[...]` raises `TypeError`. -/
def validateNoPrivateFields (viewFields : List String) :
    List (String × Bool) → Except String Unit
  | [] => .ok ()
  | (n, priv) :: rest =>
    if viewFields.contains n && priv then
      .error ("field " ++ n ++ " is marked as Private and cannot be exposed")
    else validateNoPrivateFields viewFields rest

/-- The declaration-time validation tail of `ViewDTOMeta.__new__` (view.py
lines 221-227) for a view bound to a single domain: validate the field
mappings, then validate that no `Private` field is exposed. -/
def viewdtoDeclarationChecks (table : List DomainClsSpec) (domainCls : DomainClsSpec)
    (viewFields : List String) (mappings : List (String × FieldMapping)) :
    Except String Unit :=
  match validateViewFieldMappings table domainCls mappings with
  | .error e => .error e
  | .ok () => validateNoPrivateFields viewFields (typeHints domainCls)

/-! ## Concrete instances used to evaluate the theorems on closed inputs -/

/-- The `User{id: 1, username: "alice", email: "a@x.com"}` entity of spec
section 8. -/
def exUser : Val :=
  Val.obj [("id", Val.vint 1), ("username", Val.vstr "alice"),
           ("email", Val.vstr "a@x.com")]

/-- A view of `exUser` whose `email` field carries the visibility predicate
`visible=lambda ctx: ctx` over a boolean context. -/
def exVisSpec : ViewSpec Bool :=
  ⟨["id", "email"], [], [("email", ⟨none, some (fun c => c)⟩)], [], false⟩

/-- A view declaring a `nickname` field that no attribute of `exUser`
matches. -/
def exAutoSpec : ViewSpec Unit :=
  ⟨["id", "nickname"], [], [], [], false⟩

/-- A parent before-build hook writing `username`. -/
def exParentHooks : List (Val → Option Unit → AList) :=
  [fun _ _ => [("username", Val.vstr "parenthook")]]

/-- A child before-build hook also writing `username`. -/
def exChildHooks : List (Val → Option Unit → AList) :=
  [fun _ _ => [("username", Val.vstr "childhook")]]

/-- A view with inherited hooks, merged parent-first. -/
def exHookSpec : ViewSpec Unit :=
  ⟨["id", "username"], [], [], mergeBeforeBuildHooks exParentHooks exChildHooks, false⟩

/-- The buyer/seller aggregate of spec section 8: two fields of the same
entity type `User`, `buyer = {id: 10}` and `seller = {id: 20}`. -/
def exBuyerSellerAgg : Val :=
  Val.obj [("buyer", Val.obj [("id", Val.vint 10)]),
           ("seller", Val.obj [("id", Val.vint 20)])]

/-- A view on the buyer/seller aggregate mapping `buyer_id` through the
`buyer` namespace and `seller_id` through the `seller` namespace. -/
def exBuyerSellerSpec : ViewSpec Unit :=
  ⟨["buyer_id", "seller_id"],
   [("buyer_id", ⟨"User", "id", some "buyer", ["id"]⟩),
    ("seller_id", ⟨"User", "id", some "seller", ["id"]⟩)],
   [], [], true⟩

/-- A `User` domain class whose `password_hash` field is `Private[str]`. -/
def exUserCls : DomainClsSpec :=
  ⟨"User", [("id", false, none), ("username", false, none),
            ("password_hash", true, none)]⟩

/-! ## Association-list laws -/

theorem contains_iff_mem {l : List String} {a : String} :
    l.contains a = true ↔ a ∈ l := by
  induction l with
  | nil => simp
  | cons b rest ih =>
    by_cases h : b = a
    · simp [List.contains_cons, h]
    · simp [List.contains_cons, ih, h, Ne.symm h]

theorem alookup_setKey_self {α : Type} (d : List (String × α)) (k : String) (v : α) :
    alookup (setKey d k v) k = some v := by
  induction d with
  | nil => simp [setKey, alookup]
  | cons kv rest ih =>
    obtain ⟨k', v'⟩ := kv
    by_cases h : k' = k
    · simp [setKey, alookup, h]
    · simp [setKey, alookup, h, ih]

theorem alookup_setKey_ne {α : Type} (d : List (String × α)) (k k' : String) (v : α)
    (h : k' ≠ k) : alookup (setKey d k' v) k = alookup d k := by
  induction d with
  | nil => simp [setKey, alookup, h]
  | cons kv rest ih =>
    obtain ⟨k₀, v₀⟩ := kv
    by_cases h₀ : k₀ = k'
    · simp [setKey, alookup, h₀, h]
    · simp only [setKey, h₀, if_false]
      by_cases h₁ : k₀ = k
      · simp [alookup, h₁]
      · simp [alookup, h₁, ih]

theorem alookup_updateAll {α : Type} (kvs : List (String × α)) (d : List (String × α))
    (k : String) :
    alookup (updateAll d kvs) k =
      match lookupLast kvs k with
      | some v => some v
      | none => alookup d k := by
  induction kvs generalizing d with
  | nil => rfl
  | cons kv rest ih =>
    obtain ⟨k', v⟩ := kv
    show alookup (updateAll (setKey d k' v) rest) k = _
    rw [ih]
    cases hl : lookupLast rest k with
    | some w => simp [lookupLast, hl]
    | none =>
      by_cases hk : k' = k
      · simp [lookupLast, hl, hk, alookup_setKey_self]
      · simp [lookupLast, hl, hk, alookup_setKey_ne _ _ _ _ hk]

theorem alookup_filter_keys {α : Type} (pk : String → Bool) (d : List (String × α))
    (k : String) :
    alookup (d.filter (fun kv => pk kv.1)) k = if pk k then alookup d k else none := by
  induction d with
  | nil => simp [alookup]
  | cons kv rest ih =>
    obtain ⟨k', v⟩ := kv
    by_cases hk : k' = k
    · subst hk
      cases hp : pk k' with
      | true => simp [List.filter, hp, alookup]
      | false => simp [List.filter, hp, alookup, ih]
    · cases hp : pk k' with
      | true => simp [List.filter, hp, alookup, hk, ih]
      | false => simp [List.filter, hp, alookup, hk, ih]

theorem mem_of_alookup_eq_some {α : Type} {d : List (String × α)} {k : String} {v : α}
    (h : alookup d k = some v) : (k, v) ∈ d := by
  induction d with
  | nil => simp [alookup] at h
  | cons kv rest ih =>
    obtain ⟨k', v'⟩ := kv
    by_cases hk : k' = k
    · subst hk
      simp only [alookup, if_true] at h
      simp [← Option.some.injEq _ _ |>.mp h]
    · simp only [alookup, hk, if_false] at h
      exact List.mem_cons_of_mem _ (ih h)

theorem alookup_eq_none_of_not_mem_keys {α : Type} {d : List (String × α)} {k : String}
    (h : k ∉ d.map Prod.fst) : alookup d k = none := by
  induction d with
  | nil => rfl
  | cons kv rest ih =>
    obtain ⟨k', v⟩ := kv
    simp only [List.map_cons, List.mem_cons, not_or] at h
    have hk : k' ≠ k := fun hh => h.1 hh.symm
    simp [alookup, hk, ih h.2]

theorem lookupLast_eq_none_of_not_mem_keys {α : Type} {d : List (String × α)} {k : String}
    (h : k ∉ d.map Prod.fst) : lookupLast d k = none := by
  induction d with
  | nil => rfl
  | cons kv rest ih =>
    obtain ⟨k', v⟩ := kv
    simp only [List.map_cons, List.mem_cons, not_or] at h
    have hk : k' ≠ k := fun hh => h.1 hh.symm
    simp [lookupLast, ih h.2, hk]

theorem lookupLast_eq_alookup_of_nodup {α : Type} {d : List (String × α)} (k : String)
    (h : (d.map Prod.fst).Nodup) : lookupLast d k = alookup d k := by
  induction d with
  | nil => rfl
  | cons kv rest ih =>
    obtain ⟨k', v⟩ := kv
    simp only [List.map_cons, List.nodup_cons] at h
    by_cases hk : k' = k
    · subst hk
      simp [lookupLast, alookup, lookupLast_eq_none_of_not_mem_keys h.1]
    · simp only [lookupLast, alookup, hk, if_false, ih h.2]
      cases alookup rest k <;> simp

theorem alookup_eq_some_of_mem_nodup {α : Type} {d : List (String × α)} {k : String} {v : α}
    (hnd : (d.map Prod.fst).Nodup) (h : (k, v) ∈ d) : alookup d k = some v := by
  induction d with
  | nil => simp at h
  | cons kv rest ih =>
    obtain ⟨k', v'⟩ := kv
    simp only [List.map_cons, List.nodup_cons] at hnd
    rcases List.mem_cons.mp h with h | h
    · obtain ⟨h1, h2⟩ := Prod.mk.injEq _ _ _ _ ▸ h
      simp [alookup, h1.symm, h2]
    · have hk : k' ≠ k := by
        intro he
        exact hnd.1 (he ▸ (List.mem_map.mpr ⟨(k, v), h, rfl⟩))
      simp [alookup, hk, ih hnd.2 h]

theorem keys_setKey {α : Type} (d : List (String × α)) (k : String) (v : α) :
    (setKey d k v).map Prod.fst =
      if k ∈ d.map Prod.fst then d.map Prod.fst else d.map Prod.fst ++ [k] := by
  induction d with
  | nil => simp [setKey]
  | cons kv rest ih =>
    obtain ⟨k', v'⟩ := kv
    by_cases hk : k' = k
    · simp [setKey, hk]
    · simp only [setKey, hk, if_false, List.map_cons, ih]
      by_cases hm : k ∈ rest.map Prod.fst
      · simp [hm, Ne.symm hk]
      · simp [hm, Ne.symm hk]

theorem nodup_keys_setKey {α : Type} (d : List (String × α)) (k : String) (v : α)
    (h : (d.map Prod.fst).Nodup) : ((setKey d k v).map Prod.fst).Nodup := by
  rw [keys_setKey]
  by_cases hm : k ∈ d.map Prod.fst
  · simpa [hm]
  · simp [hm, List.nodup_append, h]

theorem nodup_keys_updateAll {α : Type} (kvs : List (String × α)) (d : List (String × α))
    (h : (d.map Prod.fst).Nodup) : ((updateAll d kvs).map Prod.fst).Nodup := by
  induction kvs generalizing d with
  | nil => exact h
  | cons kv rest ih => exact ih _ (nodup_keys_setKey _ _ _ h)

theorem lookupLast_append {α : Type} (xs ys : List (String × α)) (k : String) :
    lookupLast (xs ++ ys) k =
      match lookupLast ys k with
      | some w => some w
      | none => lookupLast xs k := by
  induction xs with
  | nil =>
    cases h : lookupLast ys k <;> simp [h, lookupLast]
  | cons kv rest ih =>
    obtain ⟨k', v⟩ := kv
    show (match lookupLast (rest ++ ys) k with
          | some w => some w
          | none => if k' = k then some v else none) = _
    rw [ih]
    cases hy : lookupLast ys k <;> cases hr : lookupLast rest k <;> simp [lookupLast, hr]

theorem alookup_mkInstanceStored (schema : List String) (data : AList) (k : String) :
    alookup (mkInstanceStored schema data) k =
      if k ∈ schema then alookup data k else none := by
  induction schema with
  | nil => simp [mkInstanceStored, alookup]
  | cons s rest ih =>
    cases hv : alookup data s with
    | none =>
      by_cases hk : s = k
      · subst hk
        by_cases hm : s ∈ rest <;> simp_all [mkInstanceStored, List.filterMap_cons]
      · simp only [mkInstanceStored, List.filterMap_cons, hv]
        show alookup (mkInstanceStored rest data) k
              = if k ∈ s :: rest then alookup data k else none
        rw [ih]
        simp [List.mem_cons, Ne.symm hk]
    | some v =>
      by_cases hk : s = k
      · subst hk
        simp [mkInstanceStored, List.filterMap_cons, hv, alookup]
      · simp only [mkInstanceStored, List.filterMap_cons, hv, Option.map_some]
        show alookup ((s, v) :: mkInstanceStored rest data) k = _
        simp [alookup, hk, ih, List.mem_cons, Ne.symm hk]

/-! ## Pipeline laws -/

theorem alookup_remapToDomainNames (mappings : List (String × String)) (data : AList)
    (t : String) (hnd : (data.map Prod.fst).Nodup) :
    alookup (remapToDomainNames mappings data) t =
      lookupLast (data.map (fun kv => (renameKey mappings kv.1, kv.2))) t := by
  by_cases hm : mappings.isEmpty
  · have hmap : data.map (fun kv => (renameKey mappings kv.1, kv.2)) = data := by
      have hnil : mappings = [] := List.isEmpty_iff.mp hm
      subst hnil
      simp [renameKey, alookup]
    rw [remapToDomainNames, if_pos hm, hmap, lookupLast_eq_alookup_of_nodup _ hnd]
  · rw [remapToDomainNames, if_neg hm, alookup_updateAll]
    cases lookupLast (data.map (fun kv => (renameKey mappings kv.1, kv.2))) t <;> rfl

theorem alookup_hookExtraDataAux {κ : Type} (entity : Val) (ctx : Option κ)
    (hooks : List (Val → Option κ → AList)) (acc : AList) (k : String) :
    alookup (hookExtraDataAux entity ctx hooks acc) k =
      match lookupLast ((hooks.map (fun h => h entity ctx)).flatten) k with
      | some v => some v
      | none => alookup acc k := by
  induction hooks generalizing acc with
  | nil => rfl
  | cons h rest ih =>
    show alookup (hookExtraDataAux entity ctx rest (updateAll acc (h entity ctx))) k = _
    rw [ih, alookup_updateAll,
      show ((h :: rest).map (fun g => g entity ctx)).flatten
          = h entity ctx ++ (rest.map (fun g => g entity ctx)).flatten from by simp,
      lookupLast_append]
    cases hr : lookupLast ((rest.map (fun g => g entity ctx)).flatten) k <;>
      cases hh : lookupLast (h entity ctx) k <;> simp [hr, hh]

theorem nodup_keys_hookExtraDataAux {κ : Type} (entity : Val) (ctx : Option κ)
    (hooks : List (Val → Option κ → AList)) (acc : AList)
    (h : (acc.map Prod.fst).Nodup) :
    ((hookExtraDataAux entity ctx hooks acc).map Prod.fst).Nodup := by
  induction hooks generalizing acc with
  | nil => exact h
  | cons hk rest ih => exact ih _ (nodup_keys_updateAll _ _ h)

theorem alookup_extractExplicitFields_not_mapped {κ : Type} (entity : Val) (ctx : Option κ)
    (isAggregate : Bool) (potatoFields : List (String × FieldDef κ))
    (ms : List (String × FieldMapping)) (acc : AList) (f : String)
    (hf : f ∉ ms.map Prod.fst) :
    alookup (extractExplicitFields entity ctx isAggregate potatoFields ms acc) f
      = alookup acc f := by
  induction ms generalizing acc with
  | nil => rfl
  | cons m rest ih =>
    obtain ⟨viewField, mp⟩ := m
    simp only [List.map_cons, List.mem_cons, not_or] at hf
    show alookup (extractExplicitFields entity ctx isAggregate potatoFields rest _) f = _
    rw [ih _ hf.2]
    cases resolveFieldValue entity mp.nspace mp.path isAggregate with
    | none => rfl
    | some v => exact alookup_setKey_ne _ _ _ _ (fun hh => hf.1 hh.symm)

theorem alookup_extractAutoFields_missing (entity : Val) (mfs : List String) (acc : AList)
    (f : String) (hmiss : getattrV entity f = none) :
    alookup (extractAutoFields entity mfs acc) f = alookup acc f := by
  induction mfs generalizing acc with
  | nil => rfl
  | cons g rest ih =>
    show alookup (extractAutoFields entity rest _) f = _
    rw [ih]
    by_cases hg : g = f
    · subst hg
      cases hs : (alookup acc g).isSome <;> simp [hs, hmiss]
    · cases hs : (alookup acc g).isSome with
      | true => simp [hs]
      | false =>
        cases hv : getattrV entity g with
        | none => simp [hs, hv]
        | some v => simp [hs, hv, alookup_setKey_ne _ _ _ _ hg]

theorem mem_computeHiddenFields_subset {κ : Type}
    (potatoFields : List (String × FieldDef κ)) (ctx : Option κ) (f : String)
    (h : f ∈ computeHiddenFields potatoFields ctx) : f ∈ potatoFields.map Prod.fst := by
  induction potatoFields with
  | nil => simp [computeHiddenFields] at h
  | cons p rest ih =>
    obtain ⟨n, fd⟩ := p
    simp only [computeHiddenFields] at h
    simp only [List.map_cons, List.mem_cons]
    cases hv : fd.visible with
    | none =>
      rw [hv] at h
      exact Or.inr (ih h)
    | some vis =>
      rw [hv] at h
      cases ctx with
      | none =>
        rcases List.mem_cons.mp h with h' | h'
        · exact Or.inl h'
        · exact Or.inr (ih h')
      | some c =>
        by_cases hc : vis c
        · simp only [hc, if_true] at h
          exact Or.inr (ih h)
        · simp only [hc, if_false] at h
          rcases List.mem_cons.mp h with h' | h'
          · exact Or.inl h'
          · exact Or.inr (ih h')

theorem mem_computeHiddenFields_iff {κ : Type}
    (potatoFields : List (String × FieldDef κ)) (ctx : Option κ) (f : String)
    (fd : FieldDef κ) (p : κ → Bool)
    (hnd : (potatoFields.map Prod.fst).Nodup)
    (hpf : alookup potatoFields f = some fd)
    (hvis : fd.visible = some p) :
    f ∈ computeHiddenFields potatoFields ctx ↔
      (ctx = none ∨ ∃ c, ctx = some c ∧ p c = false) := by
  induction potatoFields with
  | nil => simp [alookup] at hpf
  | cons q rest ih =>
    obtain ⟨n, fd'⟩ := q
    simp only [List.map_cons, List.nodup_cons] at hnd
    by_cases hn : n = f
    · subst hn
      simp only [alookup, if_true] at hpf
      have hfd : fd' = fd := Option.some.injEq _ _ |>.mp hpf
      subst hfd
      have hrest : n ∉ computeHiddenFields rest ctx :=
        fun hc => hnd.1 (mem_computeHiddenFields_subset rest ctx n hc)
      simp only [computeHiddenFields, hvis]
      cases ctx with
      | none => simp
      | some c =>
        by_cases hc : p c
        · simp [hc, hrest]
        · simp [hc, hrest]
    · simp only [alookup, hn, if_false] at hpf
      have hmain := ih hnd.2 hpf
      simp only [computeHiddenFields]
      cases hv : fd'.visible with
      | none => exact hmain
      | some vis =>
        cases ctx with
        | none => simpa [List.mem_cons, hn, Ne.symm hn] using hmain
        | some c =>
          by_cases hc : vis c
          · simpa [hc] using hmain
          · simpa [hc, List.mem_cons, Ne.symm hn] using hmain

theorem alookup_modelDump (inst : Inst) (f : String) :
    alookup (modelDump inst) f =
      if inst.hidden.contains f then none else alookup inst.stored f := by
  have h := alookup_filter_keys (fun k => !inst.hidden.contains k) inst.stored f
  rw [modelDump, h]
  cases hc : inst.hidden.contains f <;> simp [hc]

/-! ## Claim theorems -/

/-- C2 (amended): for a `BuildDTO` dump whose keys are distinct, a target
name `t` of the domain schema receives (1) when `t` is not a key of the
caller's extra fields, the value of the last dump-order projection field
whose renamed target is `t` — in particular the value of any explicitly
set field that is the only one renamed to `t`; and (2) when the caller
passed `t` among the extra fields, the caller's value, overriding any
projection-derived value. -/
theorem toDomain_round_trip (domainSchema : List String)
    (mappings : List (String × String)) (dumpData kwargs : AList)
    (t : String) (v : Val)
    (hnd : (dumpData.map Prod.fst).Nodup)
    (hknd : (kwargs.map Prod.fst).Nodup)
    (ht : t ∈ domainSchema) :
    (lookupLast kwargs t = none →
      lookupLast (dumpData.map (fun kv => (renameKey mappings kv.1, kv.2))) t = some v →
      getattrV (toDomain domainSchema mappings dumpData kwargs) t = some v)
    ∧ ((t, v) ∈ kwargs →
      getattrV (toDomain domainSchema mappings dumpData kwargs) t = some v) := by
  have hc : domainSchema.contains t = true := contains_iff_mem.mpr ht
  constructor
  · intro hkw hlastv
    show alookup (mkInstanceStored domainSchema
        (updateAll ((remapToDomainNames mappings dumpData).filter
          (fun kv => domainSchema.contains kv.1)) kwargs)) t = some v
    rw [alookup_mkInstanceStored, if_pos ht, alookup_updateAll, hkw,
      alookup_filter_keys (fun k => domainSchema.contains k), hc, if_pos rfl,
      alookup_remapToDomainNames mappings dumpData t hnd, hlastv]
  · intro hmem
    have hkw : lookupLast kwargs t = some v := by
      rw [lookupLast_eq_alookup_of_nodup _ hknd]
      exact alookup_eq_some_of_mem_nodup hknd hmem
    show alookup (mkInstanceStored domainSchema
        (updateAll ((remapToDomainNames mappings dumpData).filter
          (fun kv => domainSchema.contains kv.1)) kwargs)) t = some v
    rw [alookup_mkInstanceStored, if_pos ht, alookup_updateAll, hkw]

/-- C2 witness: `UserCreate(login="alice").to_domain(id=7)` over a domain
with fields `id` and `username` and the reverse mapping
`login -> username`. -/
theorem toDomain_round_trip_witness :
    getattrV (toDomain ["id", "username"] [("login", "username")]
        [("login", Val.vstr "alice")] [("id", Val.vint 7)]) "username"
      = some (Val.vstr "alice")
    ∧ getattrV (toDomain ["id", "username"] [("login", "username")]
        [("login", Val.vstr "alice")] [("id", Val.vint 7)]) "id"
      = some (Val.vint 7) :=
  ⟨(toDomain_round_trip ["id", "username"] [("login", "username")]
      [("login", Val.vstr "alice")] [("id", Val.vint 7)] "username" (Val.vstr "alice")
      (by decide) (by decide) (by decide)).1 rfl rfl,
   (toDomain_round_trip ["id", "username"] [("login", "username")]
      [("login", Val.vstr "alice")] [("id", Val.vint 7)] "id" (Val.vint 7)
      (by decide) (by decide) (by decide)).2 (List.mem_cons_self _ _)⟩

/-- C2 counterexample: a `BuildDTO` declaring `login = Field(source=
User.username)` next to a plain `username` field.  For the dumped instance
`{login: "a", username: "b"}` the field `login` is explicitly set, its
renamed target `username` exists on the domain and is not an extra key,
yet the built entity's `username` is `"b"` (the later dump entry wins),
not `login`'s value `"a"` — refuting the claim as stated. -/
theorem toDomain_collision_counterexample :
    (("login", Val.vstr "a") ∈
        ([("login", Val.vstr "a"), ("username", Val.vstr "b")] : AList)
      ∧ renameKey [("login", "username")] "login" = "username"
      ∧ "username" ∈ (["username"] : List String)
      ∧ lookupLast ([] : AList) "username" = none)
    ∧ getattrV (toDomain ["username"] [("login", "username")]
        [("login", Val.vstr "a"), ("username", Val.vstr "b")] []) "username"
      = some (Val.vstr "b")
    ∧ ¬ getattrV (toDomain ["username"] [("login", "username")]
        [("login", Val.vstr "a"), ("username", Val.vstr "b")] []) "username"
      = some (Val.vstr "a") := by
  refine ⟨⟨List.mem_cons_self _ _, rfl, List.mem_cons_self _ _, rfl⟩, rfl, ?_⟩
  intro h
  rw [show getattrV (toDomain ["username"] [("login", "username")]
      [("login", Val.vstr "a"), ("username", Val.vstr "b")] []) "username"
      = some (Val.vstr "b") from rfl] at h
  have hb : Val.vstr "b" = Val.vstr "a" := Option.some.injEq _ _ |>.mp h
  exact absurd (Val.vstr.inj hb) (by decide)

/-- C3: applying a partial `BuildDTO` with exactly one explicitly set
field `f` to an existing entity yields a new entity whose renamed target
field holds `f`'s value while every other field equals the corresponding
field of the original; the original entity value is untouched — the
embedding is pure and `apply_to` builds a fresh instance from a dump of
the original. -/
theorem applyTo_single_field_frame (domainSchema : List String)
    (mappings : List (String × String)) (f : String) (v : Val) (ef : AList)
    (hsub : ∀ kv ∈ ef, kv.1 ∈ domainSchema)
    (ht : renameKey mappings f ∈ domainSchema) :
    getattrV (applyTo domainSchema mappings [(f, v)] (Val.obj ef))
        (renameKey mappings f) = some v
    ∧ ∀ k, k ≠ renameKey mappings f →
        getattrV (applyTo domainSchema mappings [(f, v)] (Val.obj ef)) k
          = getattrV (Val.obj ef) k := by
  have hremap : remapToDomainNames mappings [(f, v)] = [(renameKey mappings f, v)] := by
    by_cases hm : mappings.isEmpty
    · have hnil : mappings = [] := List.isEmpty_iff.mp hm
      subst hnil
      simp [remapToDomainNames, renameKey, alookup]
    · simp [remapToDomainNames, hm, updateAll, setKey]
  constructor
  · show alookup (mkInstanceStored domainSchema
        (updateAll (dumpModel (Val.obj ef)) (remapToDomainNames mappings [(f, v)])))
        (renameKey mappings f) = some v
    rw [hremap]
    show alookup (mkInstanceStored domainSchema (setKey ef (renameKey mappings f) v))
        (renameKey mappings f) = some v
    rw [alookup_mkInstanceStored, if_pos ht, alookup_setKey_self]
  · intro k hk
    show alookup (mkInstanceStored domainSchema
        (updateAll (dumpModel (Val.obj ef)) (remapToDomainNames mappings [(f, v)]))) k
        = alookup ef k
    rw [hremap]
    show alookup (mkInstanceStored domainSchema (setKey ef (renameKey mappings f) v)) k
        = alookup ef k
    rw [alookup_mkInstanceStored]
    by_cases hks : k ∈ domainSchema
    · rw [if_pos hks, alookup_setKey_ne _ _ _ _ (Ne.symm hk)]
    · rw [if_neg hks]
      cases hl : alookup ef k with
      | none => rfl
      | some w => exact absurd (hsub _ (mem_of_alookup_eq_some hl)) hks

/-- C3 witness: `UserUpdate(username="bob").apply_to(user)` over the
entity `{id: 1, username: "alice", email: "a@x.com"}` updates `username`
and leaves `id` and `email` equal to the original. -/
theorem applyTo_single_field_frame_witness :
    getattrV (applyTo ["id", "username", "email"] []
        [("username", Val.vstr "bob")]
        (Val.obj [("id", Val.vint 1), ("username", Val.vstr "alice"),
                  ("email", Val.vstr "a@x.com")])) "username" = some (Val.vstr "bob")
    ∧ getattrV (applyTo ["id", "username", "email"] []
        [("username", Val.vstr "bob")]
        (Val.obj [("id", Val.vint 1), ("username", Val.vstr "alice"),
                  ("email", Val.vstr "a@x.com")])) "id"
      = getattrV (Val.obj [("id", Val.vint 1), ("username", Val.vstr "alice"),
                  ("email", Val.vstr "a@x.com")]) "id" := by
  have h := applyTo_single_field_frame ["id", "username", "email"] []
    "username" (Val.vstr "bob")
    [("id", Val.vint 1), ("username", Val.vstr "alice"), ("email", Val.vstr "a@x.com")]
    (by
      intro kv hkv
      rcases List.mem_cons.mp hkv with h | hkv
      · simp [h]
      rcases List.mem_cons.mp hkv with h | hkv
      · simp [h]
      rcases List.mem_cons.mp hkv with h | hkv
      · simp [h]
      · simp at hkv)
    (by decide)
  exact ⟨h.1, h.2 "id" (by decide)⟩

/-- C4: a view field with a visibility predicate is always populated with
its true resolved value and readable on the constructed instance; when the
predicate rejects the context — or a predicate is present and the context
is `None` — the field is absent from `model_dump()` and
`model_dump_json()`, and when the predicate accepts the context the field
appears in the dump. -/
theorem visibility_serialization_law {κ : Type} (spec : ViewSpec κ) (entity : Val)
    (ctx : Option κ) (f : String) (fd : FieldDef κ) (p : κ → Bool) (v : Val)
    (hnd : (spec.potatoFields.map Prod.fst).Nodup)
    (hpf : alookup spec.potatoFields f = some fd)
    (hvis : fd.visible = some p)
    (hmf : f ∈ spec.modelFields)
    (hval : alookup (updateAll (extractMappedData spec entity ctx)
        (hookExtraData spec.beforeHooks entity ctx)) f = some v) :
    alookup (fromDomain spec entity ctx).stored f = some v
    ∧ ((ctx = none ∨ ∃ c, ctx = some c ∧ p c = false) →
        alookup (modelDump (fromDomain spec entity ctx)) f = none
        ∧ alookup (modelDumpJson (fromDomain spec entity ctx)) f = none)
    ∧ (∀ c, ctx = some c → p c = true →
        alookup (modelDump (fromDomain spec entity ctx)) f = some v) := by
  have hstored : alookup (fromDomain spec entity ctx).stored f = some v := by
    show alookup (mkInstanceStored spec.modelFields
        (updateAll (extractMappedData spec entity ctx)
          (hookExtraData spec.beforeHooks entity ctx))) f = some v
    rw [alookup_mkInstanceStored, if_pos hmf, hval]
  have hhid := mem_computeHiddenFields_iff spec.potatoFields ctx f fd p hnd hpf hvis
  have hhide : (fromDomain spec entity ctx).hidden = computeHiddenFields spec.potatoFields ctx :=
    rfl
  refine ⟨hstored, fun hcond => ?_, fun c hc hp => ?_⟩
  · have hmem : f ∈ (fromDomain spec entity ctx).hidden := by
      rw [hhide]
      exact hhid.mpr hcond
    have hcont : (fromDomain spec entity ctx).hidden.contains f = true :=
      contains_iff_mem.mpr hmem
    constructor
    · rw [alookup_modelDump, hcont, if_pos rfl]
    · rw [modelDumpJson, alookup_modelDump, hcont, if_pos rfl]
  · have hnotmem : f ∉ (fromDomain spec entity ctx).hidden := by
      rw [hhide]
      intro hm
      rcases hhid.mp hm with hn | ⟨c', hc', hp'⟩
      · rw [hc] at hn
        exact Option.noConfusion hn
      · rw [hc] at hc'
        have : c = c' := Option.some.injEq _ _ |>.mp hc'
        rw [← this] at hp'
        rw [hp] at hp'
        exact Bool.noConfusion hp'
    have hcont : (fromDomain spec entity ctx).hidden.contains f = false := by
      cases hb : (fromDomain spec entity ctx).hidden.contains f
      · rfl
      · exact absurd (contains_iff_mem.mp hb) hnotmem
    rw [alookup_modelDump, hcont]
    simpa using hstored

/-- C4 witness: `exVisSpec` over `exUser` with context `false`: the
`email` field is stored with its resolved value but absent from the dump;
with context `true` it appears in the dump. -/
theorem visibility_serialization_law_witness :
    (alookup (fromDomain exVisSpec exUser (some false)).stored "email"
        = some (Val.vstr "a@x.com")
      ∧ alookup (modelDump (fromDomain exVisSpec exUser (some false))) "email" = none)
    ∧ alookup (modelDump (fromDomain exVisSpec exUser (some true))) "email"
        = some (Val.vstr "a@x.com") := by
  have hfalse := visibility_serialization_law exVisSpec exUser (some false) "email"
    ⟨none, some (fun c => c)⟩ (fun c => c) (Val.vstr "a@x.com")
    (by decide) rfl rfl (by decide) rfl
  have htrue := visibility_serialization_law exVisSpec exUser (some true) "email"
    ⟨none, some (fun c => c)⟩ (fun c => c) (Val.vstr "a@x.com")
    (by decide) rfl rfl (by decide) rfl
  exact ⟨⟨hfalse.1, (hfalse.2.1 (Or.inr ⟨false, rfl, rfl⟩)).1⟩,
    htrue.2.2 true rfl rfl⟩

/-- C5: on the buyer/seller aggregate with `buyer = {id: 10}` and
`seller = {id: 20}`, the projection field mapped through the `buyer`
namespace resolves to 10 and the one mapped through the `seller`
namespace resolves to 20 — the namespace alone selects the sub-entity and
the values are never swapped. -/
theorem namespace_disambiguation :
    alookup (fromDomain exBuyerSellerSpec exBuyerSellerAgg none).stored "buyer_id"
        = some (Val.vint 10)
    ∧ alookup (fromDomain exBuyerSellerSpec exBuyerSellerAgg none).stored "seller_id"
        = some (Val.vint 20) :=
  ⟨rfl, rfl⟩

/-- C7: an auto-mapped (name-matched) projection field whose attribute is
absent on the source entity is omitted from the extracted data — no `None`
is written for it, and the total resolution functions never raise. -/
theorem missing_auto_field_omitted {κ : Type} (spec : ViewSpec κ) (entity : Val)
    (ctx : Option κ) (f : String)
    (hmiss : getattrV entity f = none)
    (hnm : f ∉ spec.fieldMappings.map Prod.fst) :
    alookup (extractMappedData spec entity ctx) f = none := by
  rw [extractMappedData,
    alookup_extractAutoFields_missing entity spec.modelFields _ f hmiss,
    alookup_extractExplicitFields_not_mapped entity ctx spec.isAggregate
      spec.potatoFields spec.fieldMappings [] f hnm]
  rfl

/-- C7 witness: the `nickname` field of `exAutoSpec` does not resolve on
`exUser` and is omitted from the extracted data. -/
theorem missing_auto_field_omitted_witness :
    alookup (extractMappedData exAutoSpec exUser none) "nickname" = none :=
  missing_auto_field_omitted exAutoSpec exUser none "nickname" rfl (by simp [exAutoSpec])

/-- C8: `from_domains` returns one projection per entity with the i-th
output built from the i-th input, and the asynchronous batch variant
`afrom_domains` (fan-out through `asyncio.gather`, which returns results
in argument order) preserves input order as well. -/
theorem batch_order_preserved {κ : Type} (spec : ViewSpec κ) (entities : List Val)
    (ctx : Option κ) :
    (fromDomains spec entities ctx).length = entities.length
    ∧ (∀ i : Nat, (fromDomains spec entities ctx)[i]? =
        (entities[i]?).map (fun e => fromDomain spec e ctx))
    ∧ (afromDomains spec entities ctx).length = entities.length
    ∧ (∀ i : Nat, (afromDomains spec entities ctx)[i]? =
        (entities[i]?).map (fun e => afromDomain spec e ctx)) := by
  refine ⟨?_, fun i => ?_, ?_, fun i => ?_⟩ <;>
    simp [fromDomains, afromDomains]

/-- C9: the hidden-field set of a constructed projection depends only on
the class and the context — two instances built from different entities
under the same context carry identical hidden-field sets. -/
theorem hidden_fields_entity_independent {κ : Type} (spec : ViewSpec κ)
    (e₁ e₂ : Val) (ctx : Option κ) :
    (fromDomain spec e₁ ctx).hidden = (fromDomain spec e₂ ctx).hidden :=
  rfl

/-- C10: when the before-build hooks (parent hooks before child hooks, in
declaration order) return dicts containing a projection-field name `k`,
the value stored on the constructed projection for `k` is the one from
the last such hook, overriding any value resolved from the source
entity. -/
theorem before_build_hook_override {κ : Type}
    (parentHooks childHooks : List (Val → Option κ → AList))
    (spec : ViewSpec κ) (entity : Val) (ctx : Option κ) (k : String) (v : Val)
    (hhooks : spec.beforeHooks = mergeBeforeBuildHooks parentHooks childHooks)
    (hk : k ∈ spec.modelFields)
    (hlast : lookupLast (((parentHooks ++ childHooks).map
        (fun h => h entity ctx)).flatten) k = some v) :
    alookup (fromDomain spec entity ctx).stored k = some v := by
  have hextra : alookup (hookExtraData spec.beforeHooks entity ctx) k = some v := by
    rw [hookExtraData, alookup_hookExtraDataAux, hhooks, mergeBeforeBuildHooks, hlast]
  have hlastextra : lookupLast (hookExtraData spec.beforeHooks entity ctx) k = some v := by
    rw [hookExtraData, lookupLast_eq_alookup_of_nodup _
      (nodup_keys_hookExtraDataAux entity ctx spec.beforeHooks [] (by simp))]
    exact hextra
  show alookup (mkInstanceStored spec.modelFields
      (updateAll (extractMappedData spec entity ctx)
        (hookExtraData spec.beforeHooks entity ctx))) k = some v
  rw [alookup_mkInstanceStored, if_pos hk, alookup_updateAll, hlastextra]

/-- C10 witness: with a parent hook and a child hook both returning a
value for `username`, the constructed instance stores the child hook's
value, overriding both the parent hook and the entity's own
`username = "alice"`. -/
theorem before_build_hook_override_witness :
    alookup (fromDomain exHookSpec exUser none).stored "username"
      = some (Val.vstr "childhook") :=
  before_build_hook_override exParentHooks exChildHooks exHookSpec exUser none
    "username" (Val.vstr "childhook") rfl (by decide) rfl

theorem extractBuildMappings_error_of_deep
    (potatoSources : List (String × Option FieldProxySpec))
    (fname : String) (proxy : FieldProxySpec)
    (hmem : (fname, some proxy) ∈ potatoSources)
    (hdeep : proxy.path.length > 1) :
    ∃ e, extractBuildMappings potatoSources = .error e := by
  induction potatoSources with
  | nil => simp at hmem
  | cons hd rest ih =>
    obtain ⟨g, src⟩ := hd
    rcases List.mem_cons.mp hmem with he | he
    · have h1 : fname = g := congrArg Prod.fst he
      have h2 : some proxy = src := congrArg Prod.snd he
      subst h1
      rw [← h2]
      exact ⟨"field " ++ fname ++ " uses a deep path",
        by simp [extractBuildMappings, hdeep]⟩
    · obtain ⟨e, herr⟩ := ih he
      cases src with
      | none => exact ⟨e, by simpa [extractBuildMappings] using herr⟩
      | some p =>
        by_cases hp : p.path.length > 1
        · exact ⟨"field " ++ g ++ " uses a deep path",
            by simp [extractBuildMappings, hp]⟩
        · exact ⟨e, by simp [extractBuildMappings, hp, herr, Except.map]⟩

theorem extractBuildMappings_ok_spec
    (potatoSources : List (String × Option FieldProxySpec))
    (ms : List (String × String))
    (hok : extractBuildMappings potatoSources = .ok ms) :
    ∀ fname proxy, (fname, some proxy) ∈ potatoSources →
      proxy.path.length ≤ 1 ∧ (fname, proxy.fieldName) ∈ ms := by
  induction potatoSources generalizing ms with
  | nil => intro fname proxy hmem; simp at hmem
  | cons hd rest ih =>
    obtain ⟨g, src⟩ := hd
    intro fname proxy hmem
    cases src with
    | none =>
      have hok' : extractBuildMappings rest = .ok ms := by
        simpa [extractBuildMappings] using hok
      rcases List.mem_cons.mp hmem with he | he
      · have h2 : some proxy = none := congrArg Prod.snd he
        exact absurd h2 (by simp)
      · exact ih ms hok' fname proxy he
    | some p =>
      by_cases hp : p.path.length > 1
      · rw [show extractBuildMappings ((g, some p) :: rest)
            = .error ("field " ++ g ++ " uses a deep path") from by
          simp [extractBuildMappings, hp]] at hok
        exact absurd hok (by simp)
      · cases hrest : extractBuildMappings rest with
        | error e =>
          rw [show extractBuildMappings ((g, some p) :: rest) = .error e from by
            simp [extractBuildMappings, hp, hrest, Except.map]] at hok
          exact absurd hok (by simp)
        | ok ms' =>
          have hms : (g, p.fieldName) :: ms' = ms := by
            have h := hok
            rw [show extractBuildMappings ((g, some p) :: rest)
                = .ok ((g, p.fieldName) :: ms') from by
              simp [extractBuildMappings, hp, hrest, Except.map]] at h
            simpa using h
          rcases List.mem_cons.mp hmem with he | he
          · have h1 : fname = g := congrArg Prod.fst he
            have h2 : proxy = p := by
              have h2' := congrArg Prod.snd he
              simpa using h2'
            subst h1
            subst h2
            exact ⟨Nat.le_of_not_lt hp,
              by rw [← hms]; exact List.mem_cons_self _ _⟩
          · obtain ⟨hle, hin⟩ := ih ms' hrest fname proxy he
            exact ⟨hle, by rw [← hms]; exact List.mem_cons_of_mem _ hin⟩

theorem checkMappingTargets_ok_spec (domainFields : List String)
    (ms : List (String × String))
    (hok : checkMappingTargets domainFields ms = .ok ()) :
    ∀ f t, (f, t) ∈ ms → t ∈ domainFields := by
  induction ms with
  | nil => intro f t hmem; simp at hmem
  | cons hd rest ih =>
    obtain ⟨g, u⟩ := hd
    intro f t hmem
    by_cases hc : domainFields.contains u
    · simp only [checkMappingTargets, hc, if_true] at hok
      rcases List.mem_cons.mp hmem with he | he
      · obtain ⟨h1, h2⟩ := Prod.mk.injEq _ _ _ _ ▸ he
        exact h2 ▸ contains_iff_mem.mp hc
      · exact ih hok f t he
    · simp only [checkMappingTargets, hc, if_false] at hok
      exact absurd hok (by simp)

/-- C6: a `BuildDTO` class declaring a field whose `Field(source=...)`
reference carries a deep path (more than one step) raises `TypeError` at
declaration time; and when the bound domain schema is nonempty, a
declaration is accepted only if every reverse mapping targets exactly one
flat field that exists (by name) on the bound domain schema. -/
theorem buildDTO_reverse_mapping_validation
    (potatoSources : List (String × Option FieldProxySpec))
    (domainFields : List String) (hdf : domainFields ≠ []) :
    (∀ fname proxy, (fname, some proxy) ∈ potatoSources → proxy.path.length > 1 →
        ∃ e, buildDTODeclare potatoSources (some domainFields) = .error e)
    ∧ (∀ ms, buildDTODeclare potatoSources (some domainFields) = .ok ms →
        ∀ fname proxy, (fname, some proxy) ∈ potatoSources →
          proxy.path.length ≤ 1 ∧ proxy.fieldName ∈ domainFields
            ∧ (fname, proxy.fieldName) ∈ ms) := by
  constructor
  · intro fname proxy hmem hdeep
    obtain ⟨e, herr⟩ := extractBuildMappings_error_of_deep potatoSources fname proxy hmem hdeep
    exact ⟨e, by simp [buildDTODeclare, herr]⟩
  · intro ms hok fname proxy hmem
    cases hex : extractBuildMappings potatoSources with
    | error e =>
      rw [show buildDTODeclare potatoSources (some domainFields) = .error e from by
        simp [buildDTODeclare, hex]] at hok
      exact absurd hok (by simp)
    | ok ms' =>
      obtain ⟨hle, hin⟩ := extractBuildMappings_ok_spec potatoSources ms' hex fname proxy hmem
      cases hval : validateBuildFieldMappings (some domainFields) ms' with
      | error e =>
        rw [show buildDTODeclare potatoSources (some domainFields) = .error e from by
          simp [buildDTODeclare, hex, hval]] at hok
        exact absurd hok (by simp)
      | ok u =>
        cases u
        have hms : ms' = ms := by
          rw [show buildDTODeclare potatoSources (some domainFields) = .ok ms' from by
            simp [buildDTODeclare, hex, hval]] at hok
          simpa using hok
        have hms_ne : ms'.isEmpty = false := by
          cases ms' with
          | nil => simp at hin
          | cons a l => rfl
        have hdf_ne : domainFields.isEmpty = false := by
          cases domainFields with
          | nil => exact absurd rfl hdf
          | cons a l => rfl
        have hchk : checkMappingTargets domainFields ms' = .ok () := by
          have h := hval
          simp only [validateBuildFieldMappings, hms_ne, hdf_ne] at h
          simpa using h
        exact ⟨hle, checkMappingTargets_ok_spec domainFields ms' hchk _ _ hin,
          hms ▸ hin⟩

/-- C6 witness: a field sourced from the deep path `customer.city` is
rejected at declaration time over the nonempty domain schema
`[customer_id, city]`. -/
theorem buildDTO_reverse_mapping_validation_witness :
    ∃ e, buildDTODeclare
        [("owner_city", some ⟨"Order", ["customer", "city"], "city"⟩)]
        (some ["customer_id", "city"]) = .error e :=
  (buildDTO_reverse_mapping_validation
      [("owner_city", some ⟨"Order", ["customer", "city"], "city"⟩)]
      ["customer_id", "city"] (by decide)).1
    "owner_city" ⟨"Order", ["customer", "city"], "city"⟩
    (List.mem_cons_self _ _) (by decide)

/-- C1 counterexample: a `ViewDTO` bound to a `User` domain whose
`password_hash` field is `Private[str]`, declaring the projection field
`pw = Field(source=User.password_hash)` — a Private source included under
a different projection-field name.  The declaration-time checks accept
the class (`.ok`), refuting the claim that every such declaration raises
`TypeError`. -/
theorem private_renamed_mapping_accepted :
    viewdtoDeclarationChecks [exUserCls] exUserCls ["id", "pw"]
        [("pw", ⟨"User", "password_hash", none, ["password_hash"]⟩)] = .ok ()
    ∧ alookup (typeHints exUserCls) "password_hash" = some true :=
  ⟨rfl, rfl⟩

/-- C1 (amended): the declaration-time Private check accepts a `ViewDTO`
iff no declared projection-field name equals (by name) a field of the
bound domain class's own type hints that is marked Private; Private
sources reached under a different projection-field name through
`Field(source=...)`, and Private fields of entities only reachable
through an aggregate, are not inspected by this check. -/
theorem validateNoPrivateFields_ok_iff (viewFields : List String)
    (hints : List (String × Bool)) :
    validateNoPrivateFields viewFields hints = .ok () ↔
      ∀ n priv, (n, priv) ∈ hints → priv = true → n ∉ viewFields := by
  induction hints with
  | nil => simp [validateNoPrivateFields]
  | cons hd rest ih =>
    obtain ⟨n, priv⟩ := hd
    cases hc : (viewFields.contains n && priv) with
    | true =>
      have hcn : n ∈ viewFields := contains_iff_mem.mp (Bool.and_eq_true _ _ |>.mp hc).1
      have hp : priv = true := (Bool.and_eq_true _ _ |>.mp hc).2
      have hstep : validateNoPrivateFields viewFields ((n, priv) :: rest)
          = .error ("field " ++ n ++ " is marked as Private and cannot be exposed") := by
        show (if viewFields.contains n && priv then
            (Except.error ("field " ++ n ++ " is marked as Private and cannot be exposed")
              : Except String Unit)
          else validateNoPrivateFields viewFields rest) = _
        rw [hc, if_pos rfl]
      rw [hstep]
      constructor
      · intro he
        exact absurd he (by simp)
      · intro hall
        exact absurd hcn (hall n priv (List.mem_cons_self _ _) hp)
    | false =>
      have hstep : validateNoPrivateFields viewFields ((n, priv) :: rest)
          = validateNoPrivateFields viewFields rest := by
        show (if viewFields.contains n && priv then
            (Except.error ("field " ++ n ++ " is marked as Private and cannot be exposed")
              : Except String Unit)
          else validateNoPrivateFields viewFields rest) = _
        rw [hc]
        simp
      rw [hstep, ih]
      constructor
      · intro hall n' priv' hmem hpv
        rcases List.mem_cons.mp hmem with he | he
        · have h1 : n' = n := congrArg Prod.fst he
          have h2 : priv' = priv := congrArg Prod.snd he
          subst h1
          rw [h2] at hpv
          rw [hpv, Bool.and_true] at hc
          intro hmemv
          rw [contains_iff_mem.mpr hmemv] at hc
          exact Bool.noConfusion hc
        · exact hall n' priv' he hpv
      · intro hall n' priv' hmem hpv
        exact hall n' priv' (List.mem_cons_of_mem _ hmem) hpv

/-- C1 (amended) witness: the view fields `[id, pw]` expose no hint of
`exUserCls` by name, so the Private check accepts the declaration. -/
theorem validateNoPrivateFields_ok_iff_witness :
    validateNoPrivateFields ["id", "pw"] (typeHints exUserCls) = .ok () :=
  (validateNoPrivateFields_ok_iff ["id", "pw"] (typeHints exUserCls)).mpr (by
    intro n priv hmem hp
    rcases List.mem_cons.mp hmem with he | hmem
    · simp only [Prod.mk.injEq] at he
      rw [he.2] at hp
      exact Bool.noConfusion hp
    rcases List.mem_cons.mp hmem with he | hmem
    · simp only [Prod.mk.injEq] at he
      rw [he.2] at hp
      exact Bool.noConfusion hp
    rcases List.mem_cons.mp hmem with he | hmem
    · simp only [Prod.mk.injEq] at he
      rw [he.1]
      decide
    · simp at hmem)

end Potato
